import Mathlib

/-!
Verification of the crystallizer engine in `src/PharmaPy/Crystallizers.py`.

The Python source is embedded shallowly: numpy float arrays become `List ℚ`
(exact rational arithmetic), scalars become `ℚ`, and the external kinetics
collaborator (`KinInstance`) becomes a record of abstract functions.  Fallible
configuration paths become `Except String _`.  Each definition mirrors the
corresponding Python function; line numbers refer to `Crystallizers.py`.
-/

namespace PharmaPy

/-- `eps = np.finfo(float).eps` (line 45): the double-precision machine
epsilon, `2⁻⁵²`. -/
def eps : ℚ := 1 / 2 ^ 52

/-- The fixed size-unit scale `1e-6` (micrometres per metre) appearing cubed
as `(1e-6)**3` in the moment/mass-transfer expressions (lines 247, 262, 315). -/
def sizeUnit : ℚ := 1 / 1000000

/-- External kinetics collaborator (`self.KinInstance`): `get_kinetics`
maps (target concentration, temperature, shape factor, third moment) to
(nucleation, growth, dissolution); `alpha_fn` is the concentration-dependent
impurity/activity factor. -/
structure KineticsModel where
  get_kinetics : ℚ → ℚ → ℚ → ℚ → ℚ × ℚ × ℚ
  alpha_fn : List ℚ → ℚ

/-- Configuration and collaborator state of a `_BaseCryst` instance used by
the balance methods: target species index, concentration basis, nucleus size
`self.rad` (`rad_zero`), distribution scale factor `self.scale`, the solid
shape factor `self.Solid_1.kv`, the liquid density returned by
`self.Liquid_1.getDensity()`, the discretization `self.method`, and the
kinetics instance. -/
structure CrystCfg where
  target_ind : ℕ
  basis : String
  rad : ℚ
  scale : ℚ
  kv : ℚ
  rho_liq_density : ℚ
  method : String
  kin : KineticsModel

/-- The Van Leer flux limiter of `_BaseCryst.fvm_method` (line 299):
`limiter = (np.abs(theta) + theta) / (1 + np.abs(theta))`. -/
def vanLeer {α : Type*} [LinearOrderedField α] (θ : α) : α :=
  (|θ| + θ) / (1 + |θ|)

/-- C3: for every real `θ` the Van Leer limiter `(|θ|+θ)/(1+|θ|)` lies in
`[0, 2)`, and `limiter 1 = 1` (no correction when slopes match). -/
theorem vanLeer_bounds :
    (∀ θ : ℝ, 0 ≤ vanLeer θ ∧ vanLeer θ < 2) ∧ vanLeer (1 : ℝ) = 1 := by
  constructor
  · intro θ
    have habs : (0 : ℝ) ≤ |θ| := abs_nonneg θ
    have hs : -|θ| ≤ θ := neg_abs_le θ
    have hub : θ ≤ |θ| := le_abs_self θ
    have hden : (0 : ℝ) < 1 + |θ| := by linarith
    constructor
    · exact div_nonneg (by linarith) (le_of_lt hden)
    · rw [vanLeer, div_lt_iff₀ hden]
      linarith
  · rw [vanLeer]
    norm_num

/-!
### Configuration-time backend handling (claims C1, C6)

`_BaseCryst.__init__` (lines 68-73) handles `jac_type == 'AD'` with
a try/except that imports `jax.numpy` and rebinds `_BaseCryst.np`; a
failed jax load is swallowed and the class keeps the plain numpy binding.
`_BaseCryst.set_ode_problem` (lines 506-536) inspects `jac_type` only inside
the `if eval_sens:` branch, raising
`NameError("Bad string value for the 'jac_type' argument")` for an
unrecognized value; with `eval_sens` false, `jac_type` is never examined.
-/

/-- Outcome of the `jac_type` handling in `_BaseCryst.__init__` (lines
68-73): the name of the numeric module bound to `_BaseCryst.np` afterwards,
or an error had one been raised.  The `except: pass` clause means the
constructor succeeds whether or not `jax` is importable. -/
def cryst_init_backend (jax_available : Bool) (jac_type : Option String) :
    Except String String :=
  if jac_type = some "AD" then
    if jax_available then Except.ok "jax.numpy" else Except.ok "numpy"
  else Except.ok "numpy"

/-- Jacobian dispatch of `_BaseCryst.set_ode_problem` (lines 506-536):
returns the jacobian backend attached to the Assimulo problem, or the
`NameError` raised for an unrecognized `jac_type`.  The `elif` chain runs
only under `eval_sens`. -/
def set_ode_problem_jac (eval_sens : Bool) (jac_type : Option String) :
    Except String (Option String) :=
  if eval_sens then
    if jac_type = some "finite_diff" then Except.ok (some "finite_diff")
    else if jac_type = some "AD" then Except.ok (some "AD")
    else if jac_type = some "analytical" then Except.ok (some "analytical")
    else if jac_type = none then Except.ok none
    else Except.error "NameError: Bad string value for the jac_type argument"
  else Except.ok none

/-- C1, counterexample: constructing with `jac_type='AD'` in a runtime
without the AD backend raises no error at configuration time -- the claim
that every such construction fails fast is false at this concrete input. -/
theorem ad_missing_no_config_error :
    ¬ ∃ msg, cryst_init_backend false (some "AD") = Except.error msg := by
  intro ⟨msg, h⟩
  simp [cryst_init_backend] at h

/-- C1, amended: configuring with `jac_type='AD'` never raises, for any
availability of the AD backend; when the backend is missing the import
failure is silently swallowed and the default numpy backend stays bound
(`except: pass`, line 73), and the AD selection is still accepted later by
`set_ode_problem`. -/
theorem ad_missing_silent_fallback :
    (∀ (avail : Bool) (jt : Option String),
      ∃ b, cryst_init_backend avail jt = Except.ok b) ∧
    cryst_init_backend false (some "AD") = Except.ok "numpy" ∧
    cryst_init_backend true (some "AD") = Except.ok "jax.numpy" ∧
    set_ode_problem_jac true (some "AD") = Except.ok (some "AD") := by
  refine ⟨fun avail jt => ?_, rfl, rfl, rfl⟩
  by_cases h : jt = some "AD"
  · cases avail
    · exact ⟨"numpy", by simp [cryst_init_backend, h]⟩
    · exact ⟨"jax.numpy", by simp [cryst_init_backend, h]⟩
  · exact ⟨"numpy", by simp [cryst_init_backend, h]⟩

/-- C6, counterexample: for the unrecognized selection `jac_type='bogus'`
the constructor raises nothing, and at solve time the `NameError` appears
only when sensitivity evaluation is requested -- so the failure neither
happens at configuration time nor is independent of `eval_sens`, refuting
the claim at this concrete input. -/
theorem bad_jac_type_not_config_time :
    cryst_init_backend true (some "bogus") = Except.ok "numpy" ∧
    set_ode_problem_jac false (some "bogus") = Except.ok none ∧
    ∃ msg, set_ode_problem_jac true (some "bogus") = Except.error msg :=
  ⟨rfl, rfl,
    ⟨"NameError: Bad string value for the jac_type argument", rfl⟩⟩

/-- C6, amended: an unrecognized `jac_type` is accepted silently by the
constructor; the `NameError` is raised only inside `set_ode_problem` (called
from `solve_unit`) and only when sensitivity evaluation is requested; with
`eval_sens=False` no error is ever raised for it. -/
theorem bad_jac_type_error_only_with_sens (jt : String)
    (h : jt ∉ (["finite_diff", "AD", "analytical"] : List String)) :
    (∀ avail : Bool, ∃ b, cryst_init_backend avail (some jt) = Except.ok b) ∧
    set_ode_problem_jac false (some jt) = Except.ok none ∧
    set_ode_problem_jac true (some jt) =
      Except.error "NameError: Bad string value for the jac_type argument" := by
  have h1 : jt ≠ "finite_diff" := fun e => h (by simp [e])
  have h2 : jt ≠ "AD" := fun e => h (by simp [e])
  have h3 : jt ≠ "analytical" := fun e => h (by simp [e])
  refine ⟨fun avail => ?_, by simp [set_ode_problem_jac], ?_⟩
  · exact ⟨"numpy", by simp [cryst_init_backend, h2]⟩
  · simp [set_ode_problem_jac, h1, h2, h3]

/-- C6, witness: the amended theorem at the concrete input `'bogus'`. -/
theorem bad_jac_type_error_only_with_sens_witness :
    ("bogus" ∉ (["finite_diff", "AD", "analytical"] : List String)) ∧
    ((∀ avail : Bool, ∃ b, cryst_init_backend avail (some "bogus") = Except.ok b) ∧
    set_ode_problem_jac false (some "bogus") = Except.ok none ∧
    set_ode_problem_jac true (some "bogus") =
      Except.error "NameError: Bad string value for the jac_type argument") :=
  ⟨by decide, bad_jac_type_error_only_with_sens "bogus" (by decide)⟩

/-!
### Distribution scaling and reporting (claim C7)

`_BaseCryst.solve_unit` (lines 569-594) assembles the distribution block of
the initial state: for `method == 'moments'` each moment is multiplied by
`scale**k` (`init_solid *= self.scale**exp` with `exp = np.arange(num_mom)`);
for `method == '1D-FVM'` the density is multiplied by `scale`.
`BatchCryst.retrieve_results` (line 1412) and `MSMPR.retrieve_results`
(line 1717) report `states[:, :num_distr] / scale`, a uniform division.
-/

/-- Moment-representation scaling applied when assembling the initial state
(lines 572-574 and 584-586): `init_solid *= scale**exp` with
`exp = np.arange(0, num_mom)`, i.e. `mu_k * scale**k` elementwise. -/
def init_solid_moments (moments : List ℚ) (scale : ℚ) : List ℚ :=
  List.zipWith (fun m k => m * scale ^ k) moments (List.range moments.length)

/-- Finite-volume scaling applied when assembling the initial state (lines
580 and 592): `distrib * scale`. -/
def init_solid_fvm (distrib : List ℚ) (scale : ℚ) : List ℚ :=
  distrib.map (· * scale)

/-- Inverse conversion applied when reporting the distribution block
(`BatchCryst.retrieve_results` line 1412, `MSMPR.retrieve_results` line
1717): uniform division by `scale`. -/
def retrieve_distrib (row : List ℚ) (scale : ℚ) : List ℚ :=
  row.map (· / scale)

/-- C7, counterexample: with scale factor 2 the moment vector `[1, 1]` is
assembled as `[1, 2]` (per-moment exponents) but reported as `[1/2, 1]`
(uniform division), so the moment-representation round trip is not the
identity. -/
theorem moments_scale_no_roundtrip :
    retrieve_distrib (init_solid_moments [1, 1] 2) 2 ≠ [1, 1] := by
  norm_num [retrieve_distrib, init_solid_moments, List.range_succ]

/-- C7, amended: the finite-volume conversion round-trips to the identity
for every nonzero scale, but the moment conversion does not: the reported
`k`-th moment equals the physical moment times `scale^k / scale`, which is
the identity only for `k = 1` (or `scale = 1`). -/
theorem scale_roundtrip_fvm_only (d : List ℚ) (s : ℚ) (hs : s ≠ 0) :
    retrieve_distrib (init_solid_fvm d s) s = d ∧
    ∀ k, k < d.length →
      (retrieve_distrib (init_solid_moments d s) s).getD k 0 =
        d.getD k 0 * s ^ k / s := by
  constructor
  · unfold retrieve_distrib init_solid_fvm
    rw [List.map_map]
    refine List.map_congr_left ?_ |>.trans (List.map_id d)
    intro x _
    exact mul_div_cancel_right₀ x hs
  · intro k hk
    unfold retrieve_distrib init_solid_moments
    have hk2 : k <
        ((List.zipWith (fun m k => m * s ^ k) d (List.range d.length)).map
          (· / s)).length := by
      simpa using hk
    rw [List.getD_eq_getElem _ _ hk2, List.getD_eq_getElem _ _ hk,
      List.getElem_map, List.getElem_zipWith, List.getElem_range]

/-- C7, witness: the amended theorem at `d = [1, 2]`, `s = 2`; in particular
the FVM representation round-trips while reported moments pick up
`s^(k-1)`. -/
theorem scale_roundtrip_fvm_only_witness :
    (2 : ℚ) ≠ 0 ∧
    (retrieve_distrib (init_solid_fvm [1, 2] 2) 2 = [1, 2] ∧
    ∀ k, k < ([1, 2] : List ℚ).length →
      (retrieve_distrib (init_solid_moments [1, 2] 2) 2).getD k 0 =
        ([1, 2] : List ℚ).getD k 0 * 2 ^ k / 2) :=
  ⟨by norm_num, scale_roundtrip_fvm_only [1, 2] 2 (by norm_num)⟩

/-!
### The `MSMPR.__init__` name error (claim C9)

`MSMPR.__init__` (lines 1498-1510) begins with
`super().__init__(KinInstance, Phases, mask_params, ...)`.  Python resolves
each argument name against the local scope (the method parameters), the
module globals of `Crystallizers.py`, and the builtins; `KinInstance` and
`Phases` are class-level properties, which are *not* reachable as bare names
from a method body, so evaluating the first argument raises `NameError`
before `_BaseCryst.__init__` runs.  `SemibatchCryst` (line 1854) defines no
`__init__` of its own and inherits this constructor.
-/

/-- The local names in scope in the body of `MSMPR.__init__`: its
parameters (lines 1498-1505). -/
def msmpr_init_local_names : List String :=
  ["self", "target_ind", "mask_params", "method", "scale", "isothermal",
   "temp_control", "adiabatic", "rad_zero", "reset_states", "name_species",
   "u_ht", "vol_ht", "ht_media", "basis", "jac_type"]

/-- The module-global names of `Crystallizers.py`: the imports of lines
10-43 and the module-level definitions (lines 45-46 and the four classes). -/
def crystallizers_module_names : List String :=
  ["CVode", "Explicit_Problem", "classify_phases", "LiquidStream",
   "SolidStream", "LiquidPhase", "SolidPhase", "Slurry", "SlurryStream",
   "reorder_sens", "plot_sens", "trapezoidal_rule", "get_dict_states",
   "numerical_jac", "numerical_jac_central", "dx_jac_x", "plt", "Axes3D",
   "cm", "AutoMinorLocator", "LightSource", "newton", "copy", "string",
   "jacfwd", "jnp", "np", "eps", "gas_ct", "_BaseCryst", "BatchCryst",
   "MSMPR", "SemibatchCryst"]

/-- The Python builtins referenced anywhere in `Crystallizers.py`. -/
def python_builtin_names : List String :=
  ["super", "print", "len", "isinstance", "type", "range", "enumerate",
   "hasattr", "getattr", "setattr", "list", "tuple", "dict", "str", "int",
   "float", "bool", "max", "min", "abs", "zip", "map", "RuntimeError",
   "NameError", "TypeError"]

/-- Whether a bare name resolves in the body of `MSMPR.__init__`. -/
def msmpr_init_resolves (n : String) : Bool :=
  msmpr_init_local_names.contains n || crystallizers_module_names.contains n
    || python_builtin_names.contains n

/-- Left-to-right evaluation of a list of argument names: the first name
that does not resolve raises `NameError`. -/
def eval_arg_names : List String → Except String Unit
  | [] => Except.ok ()
  | n :: rest =>
    if msmpr_init_resolves n then eval_arg_names rest
    else Except.error ("NameError: name " ++ n ++ " is not defined")

/-- The argument names of the `super().__init__(...)` call in
`MSMPR.__init__` (lines 1507-1510), in evaluation order. -/
def msmpr_super_call_arg_names : List String :=
  ["KinInstance", "Phases", "mask_params", "method", "target_ind", "scale",
   "isothermal", "temp_control", "adiabatic", "rad_zero", "reset_states",
   "name_species", "u_ht", "vol_ht", "ht_media", "basis", "jac_type"]

/-- Running `MSMPR.__init__`: its first statement is the `super().__init__`
call, whose arguments are evaluated left to right.  The values bound to the
parameters (`argv`) play no role in name resolution, so the outcome is
independent of them. -/
def msmpr_init_run (_argv : List ℚ) : Except String Unit :=
  eval_arg_names msmpr_super_call_arg_names

/-- `SemibatchCryst` declares no `__init__`, so Python method resolution
dispatches its construction to `MSMPR.__init__`. -/
def semibatch_init_run (argv : List ℚ) : Except String Unit :=
  msmpr_init_run argv

/-- C9: every invocation of the `MSMPR` constructor raises
`NameError` on the undefined name `KinInstance`, regardless of the argument
values supplied, and the inherited `SemibatchCryst` constructor behaves
identically. -/
theorem msmpr_init_always_name_error :
    (∀ argv, msmpr_init_run argv =
      Except.error "NameError: name KinInstance is not defined") ∧
    (∀ argv, semibatch_init_run argv = msmpr_init_run argv) :=
  ⟨fun _ => rfl, fun _ => rfl⟩

/-!
### Discretization strategies (claims C2, C4)

`_BaseCryst.method_of_moments` (lines 235-264) and `_BaseCryst.fvm_method`
(lines 266-321), embedded over exact rationals with the kinetics collaborator
abstract.
-/

/-- `np.diff`: forward differences, `out[i] = a[i+1] - a[i]`. -/
def npdiff (l : List ℚ) : List ℚ :=
  List.zipWith (fun a b => b - a) l l.tail

/-- `_BaseCryst.method_of_moments` (lines 235-264).  `comp_kin` follows the
`basis` branch (239-243); the growth rate is attenuated by the impurity
factor (line 249); `ind_mom = np.arange(1, len(mu))` becomes
`List.range' 1 (mu.length - 1)` zipped with `mu[:-1]`. -/
def method_of_moments (cfg : CrystCfg) (mu conc : List ℚ)
    (temp rho_cry vol : ℚ) : List ℚ × ℚ :=
  let comp_kin := if cfg.basis = "mass_frac"
    then conc.map (· / cfg.rho_liq_density) else conc
  let rates := cfg.kin.get_kinetics (comp_kin.getD cfg.target_ind 0) temp
    cfg.kv (mu.getD 3 0 * sizeUnit ^ 3)
  let nucl := rates.1
  let growth := rates.2.1 * cfg.kin.alpha_fn conc
  let dissol := rates.2.2
  let dmu_zero_dt := [nucl * vol]
  let dmu_1on_dt := List.zipWith
    (fun (k : ℕ) (m : ℚ) => (k : ℚ) * (growth + dissol) * m + nucl * cfg.rad ^ k)
    (List.range' 1 (mu.length - 1)) mu.dropLast
  let mass_transf := rho_cry * cfg.kv *
    (3 * (growth + dissol) * mu.getD 2 0 + nucl * cfg.rad ^ 3) * sizeUnit ^ 3
  (dmu_zero_dt ++ dmu_1on_dt, mass_transf)

/-- The kinetic rates as used by `fvm_method` (lines 280-286): the
nucleation rate is multiplied by `self.scale * vol` (line 283) and the
growth rate by the impurity factor (line 285). -/
def fvm_rates (cfg : CrystCfg) (moms : ℚ × ℚ) (conc : List ℚ)
    (temp vol : ℚ) : ℚ × ℚ × ℚ :=
  let comp_kin := if cfg.basis = "mass_frac"
    then conc.map (· / cfg.rho_liq_density) else conc
  let rates := cfg.kin.get_kinetics (comp_kin.getD cfg.target_ind 0) temp
    cfg.kv moms.2
  (rates.1 * cfg.scale * vol, rates.2.1 * cfg.kin.alpha_fn conc, rates.2.2)

/-- The ghost-cell padding of `fvm_method` (line 288):
`f_ghost = np.concatenate(([csd[0]], csd, [csd[-1]]))`. -/
def fvm_ghost (csd : List ℚ) : List ℚ :=
  [csd.getD 0 0] ++ csd ++ [csd.getD (csd.length - 1) 0]

/-- The interior face fluxes of `fvm_method` (lines 291-304):
`growth_term + dissol_term` built from the Van Leer-limited differences. -/
def fvm_flux_internal (cfg : CrystCfg) (csd : List ℚ) (moms : ℚ × ℚ)
    (conc : List ℚ) (temp vol : ℚ) : List ℚ :=
  let r := fvm_rates cfg moms conc temp vol
  let growth := r.2.1
  let dissol := r.2.2
  let f_diff := npdiff (fvm_ghost csd)
  let theta :=
    if 0 < growth then
      List.zipWith (fun a b => (a + eps) / (b + eps)) f_diff.dropLast f_diff.tail
    else
      List.zipWith (fun a b => (a + eps) / (b + eps)) f_diff.tail f_diff.dropLast
  let limiter := theta.map vanLeer
  let f_mid := f_diff.tail.dropLast
  let growth_term := List.zipWith (fun p d => growth * (p.1 + 1 / 2 * p.2 * d))
    (csd.dropLast.zip limiter.dropLast) f_mid
  let dissol_term := List.zipWith (fun p d => dissol * (p.1 - 1 / 2 * p.2 * d))
    (csd.tail.zip limiter.tail) f_mid
  List.zipWith (· + ·) growth_term dissol_term

/-- The full face-flux vector of `fvm_method` (line 306):
`flux = np.concatenate(([nucl], flux_internal, [0]))`. -/
def fvm_flux (cfg : CrystCfg) (csd : List ℚ) (moms : ℚ × ℚ) (conc : List ℚ)
    (temp vol : ℚ) : List ℚ :=
  [(fvm_rates cfg moms conc temp vol).1]
    ++ fvm_flux_internal cfg csd moms conc temp vol ++ [0]

/-- `_BaseCryst.fvm_method` with `output='dstates'` (lines 310-321):
`dcsd_dt = -np.diff(flux) / self.dx` and the mass-transfer rate from the
second/third grid moments. -/
def fvm_method (cfg : CrystCfg) (csd : List ℚ) (moms : ℚ × ℚ) (conc : List ℚ)
    (temp rho_cry vol : ℚ) (dx : List ℚ) : List ℚ × ℚ :=
  let r := fvm_rates cfg moms conc temp vol
  let flux := fvm_flux cfg csd moms conc temp vol
  let dcsd_dt := List.zipWith (fun fl d => -fl / d) (npdiff flux) dx
  let mass_transfer := rho_cry * cfg.kv *
    (3 * (r.2.1 + r.2.2) * moms.1 + r.1 * cfg.rad ^ 3) * sizeUnit ^ 3
  (dcsd_dt, mass_transfer)

/-- Kinetics returning constant rates, used to instantiate witnesses. -/
def sampleKin : KineticsModel :=
  { get_kinetics := fun _ _ _ _ => (2, 3, 5), alpha_fn := fun _ => 1 }

/-- A concrete configuration used to instantiate witnesses. -/
def sampleCfg : CrystCfg :=
  { target_ind := 0, basis := "mass_conc", rad := 1, scale := 1, kv := 1,
    rho_liq_density := 1, method := "moments", kin := sampleKin }

/-- Indexing a `zipWith` against `range'`: the workhorse for the elementwise
reading of the vectorized numpy expressions. -/
theorem getD_zipWith_range' (f : ℕ → ℚ → ℚ) (s cnt : ℕ) (l : List ℚ) (j : ℕ)
    (h1 : j < cnt) (h2 : j < l.length) :
    (List.zipWith f (List.range' s cnt) l).getD j 0 = f (s + j) (l.getD j 0) := by
  have hb : j < (List.zipWith f (List.range' s cnt) l).length := by
    simp only [List.length_zipWith, List.length_range']
    omega
  rw [List.getD_eq_getElem _ _ hb, List.getElem_zipWith, List.getElem_range',
    List.getD_eq_getElem _ _ h2]
  norm_num

/-- `l[:-1]` indexing: `dropLast` agrees with the original list on interior
indices. -/
theorem getD_dropLast (l : List ℚ) (j : ℕ) (h : j < l.length - 1) :
    l.dropLast.getD j 0 = l.getD j 0 := by
  have hb : j < l.dropLast.length := by
    simp only [List.length_dropLast]
    omega
  rw [List.getD_eq_getElem _ _ hb, List.getElem_dropLast,
    List.getD_eq_getElem _ _ (by omega : j < l.length)]

/-- C2: the method-of-moments right-hand side satisfies `dmu_0/dt = B*V`,
`dmu_k/dt = k*(G+D)*mu_(k-1) + B*r0^k` for `1 ≤ k < N` with the growth rate
`G` attenuated by the impurity factor, and the mass-transfer rate equals
`rho_cry*kv*(3*(G+D)*mu_2 + B*r0^3)*(1e-6)^3`. -/
theorem method_of_moments_spec (cfg : CrystCfg) (mu conc : List ℚ)
    (temp rho_cry vol : ℚ) (B G D : ℚ) (h4 : 4 ≤ mu.length)
    (hB : B = (cfg.kin.get_kinetics
      ((if cfg.basis = "mass_frac"
        then conc.map (· / cfg.rho_liq_density) else conc).getD cfg.target_ind 0)
      temp cfg.kv (mu.getD 3 0 * sizeUnit ^ 3)).1)
    (hG : G = (cfg.kin.get_kinetics
      ((if cfg.basis = "mass_frac"
        then conc.map (· / cfg.rho_liq_density) else conc).getD cfg.target_ind 0)
      temp cfg.kv (mu.getD 3 0 * sizeUnit ^ 3)).2.1 * cfg.kin.alpha_fn conc)
    (hD : D = (cfg.kin.get_kinetics
      ((if cfg.basis = "mass_frac"
        then conc.map (· / cfg.rho_liq_density) else conc).getD cfg.target_ind 0)
      temp cfg.kv (mu.getD 3 0 * sizeUnit ^ 3)).2.2) :
    (method_of_moments cfg mu conc temp rho_cry vol).1.length = mu.length ∧
    (method_of_moments cfg mu conc temp rho_cry vol).1.getD 0 0 = B * vol ∧
    (∀ k, 1 ≤ k → k < mu.length →
      (method_of_moments cfg mu conc temp rho_cry vol).1.getD k 0 =
        (k : ℚ) * (G + D) * mu.getD (k - 1) 0 + B * cfg.rad ^ k) ∧
    (method_of_moments cfg mu conc temp rho_cry vol).2 =
      rho_cry * cfg.kv * (3 * (G + D) * mu.getD 2 0 + B * cfg.rad ^ 3)
        * sizeUnit ^ 3 := by
  subst hB hG hD
  refine ⟨?_, ?_, ?_, rfl⟩
  · simp only [method_of_moments, List.length_append, List.length_zipWith,
      List.length_range', List.length_dropLast, List.length_cons,
      List.length_nil]
    omega
  · simp [method_of_moments]
  · intro k hk1 hk2
    obtain ⟨j, rfl⟩ : ∃ j, k = j + 1 := ⟨k - 1, by omega⟩
    simp only [method_of_moments, List.singleton_append, List.getD_cons_succ]
    rw [getD_zipWith_range' _ _ _ _ j (by omega)
        (by simp only [List.length_dropLast]; omega),
      getD_dropLast _ _ (by omega)]
    rw [show j + 1 - 1 = j from rfl]
    push_cast
    ring

/-- C2, witness: `method_of_moments_spec` at a concrete configuration with
constant kinetic rates `B = 2`, raw growth `3` (impurity factor 1), `D = 5`,
moment vector `[1, 2, 3, 4]` and slurry volume `10`. -/
theorem method_of_moments_spec_witness :
    (method_of_moments sampleCfg [1, 2, 3, 4] [7] 300 2 10).1.length =
      ([(1 : ℚ), 2, 3, 4]).length ∧
    (method_of_moments sampleCfg [1, 2, 3, 4] [7] 300 2 10).1.getD 0 0 =
      2 * 10 ∧
    (∀ k, 1 ≤ k → k < ([(1 : ℚ), 2, 3, 4]).length →
      (method_of_moments sampleCfg [1, 2, 3, 4] [7] 300 2 10).1.getD k 0 =
        (k : ℚ) * (3 + 5) * ([(1 : ℚ), 2, 3, 4]).getD (k - 1) 0 +
          2 * sampleCfg.rad ^ k) ∧
    (method_of_moments sampleCfg [1, 2, 3, 4] [7] 300 2 10).2 =
      2 * sampleCfg.kv *
        (3 * (3 + 5) * ([(1 : ℚ), 2, 3, 4]).getD 2 0 + 2 * sampleCfg.rad ^ 3)
          * sizeUnit ^ 3 :=
  method_of_moments_spec sampleCfg [1, 2, 3, 4] [7] 300 2 10 2 3 5
    (by decide) (by norm_num [sampleCfg, sampleKin])
    (by norm_num [sampleCfg, sampleKin]) (by norm_num [sampleCfg, sampleKin])

/-- Elementwise reading of a binary vectorized numpy expression. -/
theorem getD_zipWith (f : ℚ → ℚ → ℚ) (l₁ l₂ : List ℚ) (i : ℕ)
    (h1 : i < l₁.length) (h2 : i < l₂.length) :
    (List.zipWith f l₁ l₂).getD i 0 = f (l₁.getD i 0) (l₂.getD i 0) := by
  have hb : i < (List.zipWith f l₁ l₂).length := by
    simp only [List.length_zipWith]
    omega
  rw [List.getD_eq_getElem _ _ hb, List.getElem_zipWith,
    List.getD_eq_getElem _ _ h1, List.getD_eq_getElem _ _ h2]

/-- Indexing `np.diff`: `np.diff(l)[i] = l[i+1] - l[i]`. -/
theorem npdiff_getD (l : List ℚ) (i : ℕ) (h : i + 1 < l.length) :
    (npdiff l).getD i 0 = l.getD (i + 1) 0 - l.getD i 0 := by
  have hb : i < (npdiff l).length := by
    simp only [npdiff, List.length_zipWith, List.length_tail]
    omega
  rw [List.getD_eq_getElem _ _ hb]
  simp only [npdiff]
  rw [List.getElem_zipWith, List.getElem_tail,
    List.getD_eq_getElem _ _ h, List.getD_eq_getElem _ _ (by omega : i < l.length)]

/-- Indexing the left block of a concatenation. -/
theorem getD_append_left (l₁ l₂ : List ℚ) (n : ℕ) (h : n < l₁.length) :
    (l₁ ++ l₂).getD n 0 = l₁.getD n 0 := by
  have hb : n < (l₁ ++ l₂).length := by
    simp only [List.length_append]
    omega
  rw [List.getD_eq_getElem _ _ hb, List.getElem_append, dif_pos h,
    List.getD_eq_getElem _ _ h]

/-- Indexing the sentinel appended after a block. -/
theorem getD_append_sentinel (l : List ℚ) (a : ℚ) :
    (l ++ [a]).getD l.length 0 = a := by
  induction l with
  | nil => rfl
  | cons x xs ih => simp only [List.cons_append, List.length_cons,
      List.getD_cons_succ, ih]

/-- Length of the ghost-padded density: two ghost cells are added. -/
theorem fvm_ghost_length (csd : List ℚ) :
    (fvm_ghost csd).length = csd.length + 2 := by
  simp only [fvm_ghost, List.length_append, List.length_cons, List.length_nil]
  omega

/-- Length of `np.diff`. -/
theorem npdiff_length (l : List ℚ) : (npdiff l).length = l.length - 1 := by
  simp only [npdiff, List.length_zipWith, List.length_tail]
  omega

/-- Length of the interior face-flux vector: one per interior face. -/
theorem fvm_flux_internal_length (cfg : CrystCfg) (csd : List ℚ)
    (moms : ℚ × ℚ) (conc : List ℚ) (temp vol : ℚ) :
    (fvm_flux_internal cfg csd moms conc temp vol).length = csd.length - 1 := by
  by_cases hg : 0 < (fvm_rates cfg moms conc temp vol).2.1 <;>
    simp only [fvm_flux_internal, hg, if_true, if_false, List.length_zipWith,
      List.length_zip, List.length_map, List.length_dropLast, List.length_tail,
      npdiff_length, fvm_ghost_length] <;>
    omega

/-- Length of the face-flux vector: one flux per cell face. -/
theorem fvm_flux_length (cfg : CrystCfg) (csd : List ℚ) (moms : ℚ × ℚ)
    (conc : List ℚ) (temp vol : ℚ) (hne : csd ≠ []) :
    (fvm_flux cfg csd moms conc temp vol).length = csd.length + 1 := by
  have h1 : 0 < csd.length := List.length_pos.mpr hne
  simp only [fvm_flux, List.length_append, List.length_cons, List.length_nil,
    fvm_flux_internal_length]
  omega

/-- C4: the finite-volume discretization pads the density with replicated
boundary cells, places the (scaled) nucleation rate at the smallest-size
face and zero at the largest-size face, and returns
`dcsd_dt[i] = -(flux[i+1] - flux[i]) / dx[i]` for every cell. -/
theorem fvm_method_spec (cfg : CrystCfg) (csd : List ℚ) (moms : ℚ × ℚ)
    (conc : List ℚ) (temp rho_cry vol : ℚ) (dx : List ℚ)
    (hne : csd ≠ []) (hdx : dx.length = csd.length) :
    ((fvm_ghost csd).length = csd.length + 2 ∧
     (fvm_ghost csd).getD 0 0 = csd.getD 0 0 ∧
     (∀ i, i < csd.length → (fvm_ghost csd).getD (i + 1) 0 = csd.getD i 0) ∧
     (fvm_ghost csd).getD (csd.length + 1) 0 = csd.getD (csd.length - 1) 0) ∧
    ((fvm_flux cfg csd moms conc temp vol).length = csd.length + 1 ∧
     (fvm_flux cfg csd moms conc temp vol).getD 0 0 =
       (fvm_rates cfg moms conc temp vol).1 ∧
     (fvm_flux cfg csd moms conc temp vol).getD csd.length 0 = 0) ∧
    ((fvm_method cfg csd moms conc temp rho_cry vol dx).1.length =
       csd.length ∧
     ∀ i, i < csd.length →
       (fvm_method cfg csd moms conc temp rho_cry vol dx).1.getD i 0 =
         -((fvm_flux cfg csd moms conc temp vol).getD (i + 1) 0 -
             (fvm_flux cfg csd moms conc temp vol).getD i 0) / dx.getD i 0) := by
  have hpos : 0 < csd.length := List.length_pos.mpr hne
  refine ⟨⟨fvm_ghost_length csd, ?_, ?_, ?_⟩, ⟨fvm_flux_length _ _ _ _ _ _ hne, ?_, ?_⟩,
    ?_, ?_⟩
  · rfl
  · intro i hi
    simp only [fvm_ghost, List.singleton_append, List.getD_cons_succ]
    exact getD_append_left csd _ i hi
  · simp only [fvm_ghost, List.singleton_append, List.getD_cons_succ]
    exact getD_append_sentinel csd _
  · rfl
  · have hassoc : fvm_flux cfg csd moms conc temp vol =
        ([(fvm_rates cfg moms conc temp vol).1] ++
          fvm_flux_internal cfg csd moms conc temp vol) ++ [0] := by
      rw [fvm_flux, List.append_assoc]
    rw [hassoc,
      show csd.length = ([(fvm_rates cfg moms conc temp vol).1] ++
          fvm_flux_internal cfg csd moms conc temp vol).length by
        simp only [List.length_append, List.length_cons, List.length_nil,
          fvm_flux_internal_length]
        omega]
    exact getD_append_sentinel _ _
  · simp only [fvm_method, List.length_zipWith, npdiff_length,
      fvm_flux_length _ _ _ _ _ _ hne, hdx]
    omega
  · intro i hi
    have hflen := fvm_flux_length cfg csd moms conc temp vol hne
    simp only [fvm_method]
    rw [getD_zipWith _ _ _ i (by rw [npdiff_length, hflen]; omega)
        (by omega : i < dx.length),
      npdiff_getD _ _ (by rw [hflen]; omega)]

/-- C4, witness: `fvm_method_spec` at the concrete configuration, density
`[1, 2]`, moments `(1, 1)` and cell widths `[1, 1]`. -/
theorem fvm_method_spec_witness :
    (([(1 : ℚ), 2]) ≠ [] ∧ ([(1 : ℚ), 1]).length = ([(1 : ℚ), 2]).length) ∧
    (((fvm_ghost [1, 2]).length = ([(1 : ℚ), 2]).length + 2 ∧
     (fvm_ghost [1, 2]).getD 0 0 = ([(1 : ℚ), 2]).getD 0 0 ∧
     (∀ i, i < ([(1 : ℚ), 2]).length →
       (fvm_ghost [1, 2]).getD (i + 1) 0 = ([(1 : ℚ), 2]).getD i 0) ∧
     (fvm_ghost [1, 2]).getD (([(1 : ℚ), 2]).length + 1) 0 =
       ([(1 : ℚ), 2]).getD (([(1 : ℚ), 2]).length - 1) 0) ∧
    ((fvm_flux sampleCfg [1, 2] (1, 1) [7] 300 10).length =
       ([(1 : ℚ), 2]).length + 1 ∧
     (fvm_flux sampleCfg [1, 2] (1, 1) [7] 300 10).getD 0 0 =
       (fvm_rates sampleCfg (1, 1) [7] 300 10).1 ∧
     (fvm_flux sampleCfg [1, 2] (1, 1) [7] 300 10).getD
       ([(1 : ℚ), 2]).length 0 = 0) ∧
    ((fvm_method sampleCfg [1, 2] (1, 1) [7] 300 2 10 [1, 1]).1.length =
       ([(1 : ℚ), 2]).length ∧
     ∀ i, i < ([(1 : ℚ), 2]).length →
       (fvm_method sampleCfg [1, 2] (1, 1) [7] 300 2 10 [1, 1]).1.getD i 0 =
         -((fvm_flux sampleCfg [1, 2] (1, 1) [7] 300 10).getD (i + 1) 0 -
             (fvm_flux sampleCfg [1, 2] (1, 1) [7] 300 10).getD i 0) /
           ([(1 : ℚ), 1]).getD i 0)) :=
  ⟨⟨by decide, by decide⟩,
    fvm_method_spec sampleCfg [1, 2] (1, 1) [7] 300 2 10 [1, 1]
      (by decide) (by decide)⟩

/-!
### Mode-specific balance engines (claims C5, C8)
-/

/-- The Kronecker indicator vector `self.kron_jtg` (lines 187-188):
`np.zeros_like(mass_frac)` with a `1` at the target index. -/
def kron_jtg (num target : ℕ) : List ℚ :=
  (List.range num).map fun j => if j = target then 1 else 0

/-- `BatchCryst.material_balances` (lines 1327-1356).  `rhos` is the pair
(liquid density, solid density) and `moms` the pair `(mu_2, mu_3)`; the
discretization dispatch follows `self.method`.  Note: line 1349 builds
`dliq_dt = np.append(dcomp_dt, dvol_liq)`, which copies, so the in-place
`dcomp_dt *= 1/rho_liq` of line 1352 (`basis == 'mass_frac'`) never reaches
the returned vector; the embedding accordingly returns the unscaled
composition derivative for every basis. -/
def batch_material_balances (cfg : CrystCfg) (distrib w_conc : List ℚ)
    (temp vol_liq rho_liq rho_s : ℚ) (moms : ℚ × ℚ) (dx : List ℚ) :
    List ℚ × ℚ :=
  let vol_solid := moms.2 * cfg.kv
  let vol_slurry := vol_liq + vol_solid
  let dt := if cfg.method = "moments"
    then method_of_moments cfg distrib w_conc temp rho_s vol_slurry
    else fvm_method cfg distrib moms w_conc temp rho_s vol_slurry dx
  let transf := dt.2
  let dvol_liq := -transf / rho_liq
  let dcomp_dt := List.zipWith
    (fun kr c => -transf / vol_liq * (kr - c / rho_liq))
    (kron_jtg w_conc.length cfg.target_ind) w_conc
  let dliq_dt := dcomp_dt ++ [dvol_liq]
  (dt.1 ++ dliq_dt, transf)

/-- The last entry of a vector ending in a sentinel. -/
theorem getD_last_append_sentinel (l : List ℚ) (a : ℚ) :
    (l ++ [a]).getD ((l ++ [a]).length - 1) 0 = a := by
  simp only [List.length_append, List.length_cons, List.length_nil,
    Nat.add_sub_cancel]
  exact getD_append_sentinel l a

/-- C5: the Batch material balance returns the liquid-volume derivative
`-transf/rho_liq` as the last state entry, the composition derivative
`-transf/V_liq * (kron - C/rho_liq)` as the block before it, and the
right-hand side conserves total liquid-plus-crystal mass:
`rho_liq * dV_liq/dt + transf = 0` (no inflow/outflow terms). -/
theorem batch_material_balances_spec (cfg : CrystCfg)
    (distrib w_conc : List ℚ) (temp vol_liq rho_liq rho_s : ℚ)
    (moms : ℚ × ℚ) (dx : List ℚ) (res : List ℚ × ℚ)
    (hres : res = batch_material_balances cfg distrib w_conc temp vol_liq
      rho_liq rho_s moms dx)
    (hrho : rho_liq ≠ 0) :
    (∃ dd : List ℚ, res.1 = dd ++
      List.zipWith (fun kr c => -res.2 / vol_liq * (kr - c / rho_liq))
        (kron_jtg w_conc.length cfg.target_ind) w_conc ++
      [-res.2 / rho_liq]) ∧
    res.1.getD (res.1.length - 1) 0 = -res.2 / rho_liq ∧
    rho_liq * res.1.getD (res.1.length - 1) 0 + res.2 = 0 := by
  subst hres
  have hsplit : (batch_material_balances cfg distrib w_conc temp vol_liq
      rho_liq rho_s moms dx).1 =
      (if cfg.method = "moments"
        then method_of_moments cfg distrib w_conc temp rho_s
          (vol_liq + moms.2 * cfg.kv)
        else fvm_method cfg distrib moms w_conc temp rho_s
          (vol_liq + moms.2 * cfg.kv) dx).1 ++
      (List.zipWith (fun kr c =>
        -(batch_material_balances cfg distrib w_conc temp vol_liq rho_liq
            rho_s moms dx).2 / vol_liq * (kr - c / rho_liq))
        (kron_jtg w_conc.length cfg.target_ind) w_conc ++
      [-(batch_material_balances cfg distrib w_conc temp vol_liq rho_liq
          rho_s moms dx).2 / rho_liq]) := by
    rfl
  have hsplit2 : (batch_material_balances cfg distrib w_conc temp vol_liq
      rho_liq rho_s moms dx).1 =
      ((if cfg.method = "moments"
        then method_of_moments cfg distrib w_conc temp rho_s
          (vol_liq + moms.2 * cfg.kv)
        else fvm_method cfg distrib moms w_conc temp rho_s
          (vol_liq + moms.2 * cfg.kv) dx).1 ++
      List.zipWith (fun kr c =>
        -(batch_material_balances cfg distrib w_conc temp vol_liq rho_liq
            rho_s moms dx).2 / vol_liq * (kr - c / rho_liq))
        (kron_jtg w_conc.length cfg.target_ind) w_conc) ++
      [-(batch_material_balances cfg distrib w_conc temp vol_liq rho_liq
          rho_s moms dx).2 / rho_liq] := by
    rw [List.append_assoc]
    exact hsplit
  have hlast : (batch_material_balances cfg distrib w_conc temp vol_liq
      rho_liq rho_s moms dx).1.getD
      ((batch_material_balances cfg distrib w_conc temp vol_liq rho_liq
        rho_s moms dx).1.length - 1) 0 =
      -(batch_material_balances cfg distrib w_conc temp vol_liq rho_liq
        rho_s moms dx).2 / rho_liq := by
    rw [hsplit2]
    exact getD_last_append_sentinel _ _
  refine ⟨⟨_, hsplit2⟩, hlast, ?_⟩
  rw [hlast]
  field_simp
  ring

/-- C5, witness: `batch_material_balances_spec` at the concrete
configuration, moment vector `[1, 2, 3, 4]`, composition `[7]`, liquid
volume `2`, liquid density `1` and solid density `2`. -/
theorem batch_material_balances_spec_witness :
    ((1 : ℚ) ≠ 0) ∧
    ((∃ dd : List ℚ,
      (batch_material_balances sampleCfg [1, 2, 3, 4] [7] 300 2 1 2 (1, 1)
        []).1 = dd ++
      List.zipWith (fun kr c =>
        -(batch_material_balances sampleCfg [1, 2, 3, 4] [7] 300 2 1 2 (1, 1)
          []).2 / 2 * (kr - c / 1))
        (kron_jtg ([(7 : ℚ)]).length sampleCfg.target_ind) [7] ++
      [-(batch_material_balances sampleCfg [1, 2, 3, 4] [7] 300 2 1 2 (1, 1)
        []).2 / 1]) ∧
    (batch_material_balances sampleCfg [1, 2, 3, 4] [7] 300 2 1 2 (1, 1)
      []).1.getD
      ((batch_material_balances sampleCfg [1, 2, 3, 4] [7] 300 2 1 2 (1, 1)
        []).1.length - 1) 0 =
      -(batch_material_balances sampleCfg [1, 2, 3, 4] [7] 300 2 1 2 (1, 1)
        []).2 / 1 ∧
    1 * (batch_material_balances sampleCfg [1, 2, 3, 4] [7] 300 2 1 2 (1, 1)
      []).1.getD
      ((batch_material_balances sampleCfg [1, 2, 3, 4] [7] 300 2 1 2 (1, 1)
        []).1.length - 1) 0 +
      (batch_material_balances sampleCfg [1, 2, 3, 4] [7] 300 2 1 2 (1, 1)
        []).2 = 0) :=
  ⟨by norm_num,
    batch_material_balances_spec sampleCfg [1, 2, 3, 4] [7] 300 2 1 2 (1, 1)
      [] _ rfl (by norm_num)⟩

/-- `MSMPR.material_balances` (lines 1624-1665).  `rho_sol` is
`rhos[0][1]`, `input_distrib_phys` the upstream `num_distrib` input (which
line 1630 multiplies by `self.scale`), `phi_in0` the inlet liquid volume
fraction `phi_in[0]` computed by `unit_model` (line 389), and
`phi = 1 - kv * mu_3` (line 1651).  Both discretization calls leave `vol`
at its default `1`.  In this method the `basis == 'mass_frac'` scaling of
line 1661 happens before `np.concatenate` and therefore does reach the
returned vector. -/
def msmpr_material_balances (cfg : CrystCfg) (distrib w_conc : List ℚ)
    (temp vol input_flow : ℚ) (input_distrib_phys input_conc : List ℚ)
    (rho_sol : ℚ) (moms : ℚ × ℚ) (phi_in0 : ℚ) (dx : List ℚ) :
    List ℚ × ℚ :=
  let input_distrib := input_distrib_phys.map (· * cfg.scale)
  let dt := if cfg.method = "moments"
    then method_of_moments cfg distrib w_conc temp rho_sol 1
    else fvm_method cfg distrib moms w_conc temp rho_sol 1 dx
  let transf := dt.2
  let tau_inv := input_flow / vol
  let flow_distrib := List.zipWith (fun a b => tau_inv * (a - b))
    input_distrib distrib
  let ddistr_dt := List.zipWith (· + ·) dt.1 flow_distrib
  let phi := 1 - cfg.kv * moms.2
  let dcomp_dt := List.zipWith
    (fun p kr => 1 / phi *
      (tau_inv * (p.1 * phi_in0 - p.2 * phi) - transf * (kr - p.2 / rho_sol)))
    (input_conc.zip w_conc) (kron_jtg w_conc.length cfg.target_ind)
  let dcomp_fin := if cfg.basis = "mass_frac"
    then dcomp_dt.map (· * (1 / cfg.rho_liq_density)) else dcomp_dt
  (ddistr_dt ++ dcomp_fin, transf)

/-- The residence-time distribution term vanishes identically on equal
lists, for any prefactor. -/
theorem zipWith_sub_self (t t' : ℚ) (l : List ℚ) :
    List.zipWith (fun a b => t * (a - b)) l l =
      List.zipWith (fun a b => t' * (a - b)) l l := by
  induction l with
  | nil => rfl
  | cons x xs ih => simp only [List.zipWith_cons_cons, sub_self, mul_zero, ih]

/-- Congruence for a `zipWith` whose first list is a self-zip. -/
theorem zipWith_zip_self (f g : ℚ × ℚ → ℚ → ℚ) (l m : List ℚ)
    (h : ∀ a b, f (a, a) b = g (a, a) b) :
    List.zipWith f (l.zip l) m = List.zipWith g (l.zip l) m := by
  induction l generalizing m with
  | nil => rfl
  | cons x xs ih =>
    cases m with
    | nil => rfl
    | cons y ys => simp only [List.zip_cons_cons, List.zipWith_cons_cons, h, ih]

/-- C8: when the inflow distribution equals the internal distribution (its
scaled image is the internal state), the inflow composition equals the
internal composition, and the inlet liquid fraction accordingly equals the
internal one (`phi_in0 = 1 - kv*mu_3`, the value `unit_model` computes from
the same distribution), the MSMPR right-hand side coincides with the one
computed at zero inflow: all residence-time terms cancel and only the
crystallization terms remain. -/
theorem msmpr_flow_terms_cancel (cfg : CrystCfg) (distrib w_conc : List ℚ)
    (temp vol input_flow : ℚ) (input_distrib_phys : List ℚ) (rho_sol : ℚ)
    (moms : ℚ × ℚ) (phi_in0 : ℚ) (dx : List ℚ)
    (hdist : input_distrib_phys.map (· * cfg.scale) = distrib)
    (hphi : phi_in0 = 1 - cfg.kv * moms.2) :
    msmpr_material_balances cfg distrib w_conc temp vol input_flow
      input_distrib_phys w_conc rho_sol moms phi_in0 dx =
    msmpr_material_balances cfg distrib w_conc temp vol 0
      input_distrib_phys w_conc rho_sol moms phi_in0 dx := by
  subst hdist
  subst hphi
  simp only [msmpr_material_balances]
  congr 1
  congr 1
  · congr 1
    exact zipWith_sub_self (input_flow / vol) (0 / vol) _
  · have hfg : List.zipWith
        (fun (p : ℚ × ℚ) (kr : ℚ) => 1 / (1 - cfg.kv * moms.2) *
          (input_flow / vol *
            (p.1 * (1 - cfg.kv * moms.2) - p.2 * (1 - cfg.kv * moms.2)) -
            (if cfg.method = "moments"
              then method_of_moments cfg
                (input_distrib_phys.map (· * cfg.scale)) w_conc temp rho_sol 1
              else fvm_method cfg (input_distrib_phys.map (· * cfg.scale))
                moms w_conc temp rho_sol 1 dx).2 *
            (kr - p.2 / rho_sol)))
        (w_conc.zip w_conc) (kron_jtg w_conc.length cfg.target_ind) =
        List.zipWith
        (fun (p : ℚ × ℚ) (kr : ℚ) => 1 / (1 - cfg.kv * moms.2) *
          (0 / vol *
            (p.1 * (1 - cfg.kv * moms.2) - p.2 * (1 - cfg.kv * moms.2)) -
            (if cfg.method = "moments"
              then method_of_moments cfg
                (input_distrib_phys.map (· * cfg.scale)) w_conc temp rho_sol 1
              else fvm_method cfg (input_distrib_phys.map (· * cfg.scale))
                moms w_conc temp rho_sol 1 dx).2 *
            (kr - p.2 / rho_sol)))
        (w_conc.zip w_conc) (kron_jtg w_conc.length cfg.target_ind) :=
      zipWith_zip_self _ _ _ _ (fun a b => by
        simp only [zero_div]
        ring)
    rw [hfg]

/-- C8, witness: `msmpr_flow_terms_cancel` at the concrete configuration,
internal distribution `[1, 1, 1, 1]` equal to the (unit-scaled) inflow
distribution, composition `[7]` equal to the inflow composition, and
`phi_in0 = 1 - kv*mu_3`. -/
theorem msmpr_flow_terms_cancel_witness :
    (([(1 : ℚ), 1, 1, 1]).map (· * sampleCfg.scale) = [1, 1, 1, 1] ∧
      (0 : ℚ) = 1 - sampleCfg.kv * (1, 1).2) ∧
    msmpr_material_balances sampleCfg [1, 1, 1, 1] [7] 300 5 3 [1, 1, 1, 1]
      [7] 2 (1, 1) 0 [] =
    msmpr_material_balances sampleCfg [1, 1, 1, 1] [7] 300 5 0 [1, 1, 1, 1]
      [7] 2 (1, 1) 0 [] :=
  ⟨⟨by norm_num [sampleCfg], by norm_num [sampleCfg]⟩,
    msmpr_flow_terms_cancel sampleCfg [1, 1, 1, 1] [7] 300 5 3 [1, 1, 1, 1]
      2 (1, 1) 0 [] (by norm_num [sampleCfg]) (by norm_num [sampleCfg])⟩

/-!
### Parameter masking and reassembly (claim C10)

The `KinInstance` setter (lines 206-226) splits the kinetics parameter
vector by the boolean mask into free (`ind_true`) and fixed (`ind_false`)
indices, stores the fixed values, and stores
`ind_maskpar = np.argsort(np.concatenate((ind_true, ind_false)))`.
`unit_model` (lines 325-332) rebuilds the full vector from
`(params, params_fixed)` through `ind_maskpar` -- but only when
`len(params_fixed) > 1`.
-/

/-- `np.argsort` of an integer vector: the index list that sorts the values
(stably).  The source applies it to a permutation of `0..n-1` (line 226),
on which every sorting algorithm returns the same answer. -/
def argsort (l : List ℕ) : List ℕ :=
  List.insertionSort (fun i j => l.getD i 0 ≤ l.getD j 0) (List.range l.length)

/-- The state stored by the `KinInstance` setter (lines 219-226). -/
structure MaskState where
  ind_true : List ℕ
  ind_false : List ℕ
  params_fixed : List ℚ
  ind_maskpar : List ℕ

/-- The `KinInstance` setter computation (lines 219-226): free/fixed index
partition of the mask, the fixed parameter values pulled from the merged
vector, and the reassembly permutation. -/
def kin_setter (mask : List Bool) (merged : List ℚ) : MaskState :=
  let n := mask.length
  let ind_true := (List.range n).filter fun i => mask.getD i false
  let ind_false := (List.range n).filter fun i => !mask.getD i false
  { ind_true := ind_true
    ind_false := ind_false
    params_fixed := ind_false.map fun i => merged.getD i 0
    ind_maskpar := argsort (ind_true ++ ind_false) }

/-- The parameter preparation of `unit_model` (lines 325-332): when more
than one parameter is fixed, concatenate `(params, params_fixed)` and apply
the fancy-index `ind_maskpar`; otherwise pass `params` through unchanged. -/
def unit_model_params (params params_fixed : List ℚ)
    (ind_maskpar : List ℕ) : List ℚ :=
  if params_fixed.length > 1 then
    let params_all := params ++ params_fixed
    ind_maskpar.map fun i => params_all.getD i 0
  else params

/-- A list is recovered by indexing itself over `range`. -/
theorem map_getD_range {α : Type*} (l : List α) (d : α) :
    ((List.range l.length).map fun i => l.getD i d) = l := by
  apply List.ext_getElem
  · simp
  · intro i h1 h2
    simp only [List.getElem_map, List.getElem_range]
    exact List.getD_eq_getElem l d h2

/-- `argsort` returns a permutation of the index range. -/
theorem argsort_perm (l : List ℕ) : (argsort l).Perm (List.range l.length) :=
  List.perm_insertionSort _ _

/-- `argsort` sorts the indices by their values. -/
theorem argsort_sorted (l : List ℕ) :
    List.Sorted (fun i j => l.getD i 0 ≤ l.getD j 0) (argsort l) := by
  haveI : IsTotal ℕ fun i j => l.getD i 0 ≤ l.getD j 0 :=
    ⟨fun _ _ => le_total _ _⟩
  haveI : IsTrans ℕ fun i j => l.getD i 0 ≤ l.getD j 0 :=
    ⟨fun _ _ _ hab hbc => le_trans hab hbc⟩
  exact List.sorted_insertionSort _ _

/-- On a permutation of `0..n-1`, `argsort` is the inverse permutation:
`l[argsort(l)[k]] = k`. -/
theorem argsort_getD_inverse {l : List ℕ} {n : ℕ}
    (hperm : l.Perm (List.range n)) {k : ℕ} (hk : k < n) :
    l.getD ((argsort l).getD k 0) 0 = k := by
  have hlen : l.length = n := by simpa using hperm.length_eq
  have hpp : (argsort l).Perm (List.range n) := by
    rw [← hlen]
    exact argsort_perm l
  have hplen : (argsort l).length = n := by simpa using hpp.length_eq
  have hkeys_perm : ((argsort l).map fun i => l.getD i 0).Perm
      (List.range n) := by
    refine (hpp.map fun i => l.getD i 0).trans ?_
    rw [← hlen, map_getD_range]
    rw [hlen]
    exact hperm
  have hkeys_sorted : List.Sorted (· ≤ ·)
      ((argsort l).map fun i => l.getD i 0) :=
    List.pairwise_map.mpr (argsort_sorted l)
  have hkeys : ((argsort l).map fun i => l.getD i 0) = List.range n :=
    List.eq_of_perm_of_sorted hkeys_perm hkeys_sorted (List.sorted_le_range n)
  have hk2 : k < (argsort l).length := by omega
  have hk3 : k < ((argsort l).map fun i => l.getD i 0).length := by
    simpa using hk2
  have h1 : ((argsort l).map fun i => l.getD i 0).getD k 0 = k := by
    rw [hkeys, List.getD_eq_getElem _ _ (by simpa using hk), List.getElem_range]
  rw [List.getD_eq_getElem _ _ hk3, List.getElem_map] at h1
  rw [List.getD_eq_getElem _ _ hk2]
  exact h1

/-- Indexing a mapped lookup list. -/
theorem getD_map_getD (c : List ℕ) (merged : List ℚ) (j : ℕ)
    (h : j < c.length) :
    ((c.map fun i => merged.getD i 0).getD j 0) =
      merged.getD (c.getD j 0) 0 := by
  rw [List.getD_eq_getElem _ _ (by simpa using h), List.getElem_map,
    List.getD_eq_getElem c 0 h]

/-- Fancy-indexing the value list of a permutation `c` of `0..n-1` by
`argsort c` recovers the original ordering. -/
theorem reassemble_by_argsort (c : List ℕ) (merged : List ℚ) {n : ℕ}
    (hc : c.Perm (List.range n)) (hn : merged.length = n) :
    ((argsort c).map fun i => (c.map fun i => merged.getD i 0).getD i 0) =
      merged := by
  have hclen : c.length = n := by simpa using hc.length_eq
  apply List.ext_getElem
  · rw [List.length_map, (argsort_perm c).length_eq, List.length_range]
    omega
  · intro k h1 h2
    have hkn : k < n := by omega
    have hk' : k < (argsort c).length := by
      rw [(argsort_perm c).length_eq, List.length_range]
      omega
    simp only [List.getElem_map]
    rw [← List.getD_eq_getElem (argsort c) 0 hk']
    have hjmem : (argsort c).getD k 0 ∈ argsort c := by
      rw [List.getD_eq_getElem _ 0 hk']
      exact List.getElem_mem _
    have hjlt : (argsort c).getD k 0 < c.length := by
      have h3 := (argsort_perm c).mem_iff.mp hjmem
      rw [List.mem_range] at h3
      omega
    rw [getD_map_getD c merged _ hjlt, argsort_getD_inverse hc hkn,
      List.getD_eq_getElem merged 0 h2]

/-- C10: `unit_model` reassembles the full kinetics parameter vector through
the stored permutation only when strictly more than one parameter is fixed
-- and then the reassembly is correct: feeding the free sub-vector of the
merged parameters returns the merged vector itself.  When exactly one
parameter is fixed, the free sub-vector is passed through unchanged and the
fixed value is dropped. -/
theorem unit_model_params_spec (mask : List Bool) (merged params : List ℚ)
    (hlen : mask.length = merged.length) :
    ((kin_setter mask merged).params_fixed.length = 1 →
      unit_model_params params (kin_setter mask merged).params_fixed
        (kin_setter mask merged).ind_maskpar = params) ∧
    (1 < (kin_setter mask merged).params_fixed.length →
      unit_model_params
        ((kin_setter mask merged).ind_true.map fun i => merged.getD i 0)
        (kin_setter mask merged).params_fixed
        (kin_setter mask merged).ind_maskpar = merged) := by
  constructor
  · intro h1
    rw [unit_model_params, if_neg (by omega)]
  · intro hgt
    rw [unit_model_params, if_pos hgt]
    have hall : (((kin_setter mask merged).ind_true.map
        fun i => merged.getD i 0) ++ (kin_setter mask merged).params_fixed) =
        (((kin_setter mask merged).ind_true ++
          (kin_setter mask merged).ind_false).map fun i => merged.getD i 0) := by
      simp only [kin_setter, List.map_append]
    have hmp : (kin_setter mask merged).ind_maskpar =
        argsort ((kin_setter mask merged).ind_true ++
          (kin_setter mask merged).ind_false) := by
      simp only [kin_setter]
    rw [hall, hmp]
    have hc : ((kin_setter mask merged).ind_true ++
        (kin_setter mask merged).ind_false).Perm (List.range mask.length) := by
      simpa only [kin_setter] using
        List.filter_append_perm (fun i => mask.getD i false)
          (List.range mask.length)
    exact reassemble_by_argsort _ merged hc hlen.symm

/-- C10, witness: with mask `[T, F, T, F]` over merged parameters
`[10, 20, 30, 40]`, two parameters are fixed, and the reassembled vector
passed to `set_params` is the merged vector itself. -/
theorem unit_model_params_spec_witness :
    ([true, false, true, false] : List Bool).length =
      ([(10 : ℚ), 20, 30, 40]).length ∧
    1 < (kin_setter [true, false, true, false]
      [(10 : ℚ), 20, 30, 40]).params_fixed.length ∧
    unit_model_params
      ((kin_setter [true, false, true, false]
        [(10 : ℚ), 20, 30, 40]).ind_true.map
          fun i => ([(10 : ℚ), 20, 30, 40]).getD i 0)
      (kin_setter [true, false, true, false]
        [(10 : ℚ), 20, 30, 40]).params_fixed
      (kin_setter [true, false, true, false]
        [(10 : ℚ), 20, 30, 40]).ind_maskpar = [(10 : ℚ), 20, 30, 40] :=
  ⟨by decide, by decide,
    (unit_model_params_spec [true, false, true, false] [(10 : ℚ), 20, 30, 40]
      [] (by decide)).2 (by decide)⟩

end PharmaPy
